import Mathlib

/-!
Verification of a minimal durable key-value store whose persistence is an
append-only write-ahead log of checksummed binary frames (source:
`src/node.rs`).  The Rust code is shallowly embedded: bytes are `Nat`s
(kept below 256 by well-formedness hypotheses), `u32` arithmetic is `Nat`
arithmetic taken `% 2 ^ 32` where the source can wrap, files are `List Nat`
contents, fallible operations return `Except KVerror`, and the `HashMap` is
an association list with overwrite-on-insert semantics.
-/

namespace KV

/-- The error enum `KVerror` of `node.rs`.  The Rust variant named after
input/output failures is rendered `IOErr` here. -/
inductive KVerror where
  | Startup
  | IOErr
  | CorruptLog
  | NotFound
  | Encoding
deriving DecidableEq, Repr

/-- The `Encoding` enum of `node.rs` (`String = 0x00`, `Integer = 0x01`,
`Float = 0x02`). -/
inductive Encoding where
  | String
  | Integer
  | Float
deriving DecidableEq, Repr

/-- The `as u8` view of an `Encoding` value (its `repr(u8)` discriminant). -/
def Encoding.toU8 : Encoding → Nat
  | .String => 0x00
  | .Integer => 0x01
  | .Float => 0x02

/-- `Encoding::from_u8` from `node.rs`: `0x00`, `0x01`, `0x02` decode to the
three variants, anything else is an `Encoding` error. -/
def Encoding.from_u8 (b : Nat) : Except KVerror Encoding :=
  if b = 0x00 then .ok .String
  else if b = 0x01 then .ok .Integer
  else if b = 0x02 then .ok .Float
  else .error .Encoding

/-- The `Frame` struct of `node.rs`.  Byte and `u32` fields are `Nat`s;
payloads are byte lists. -/
structure Frame where
  total_len : Nat
  magic : Nat
  version : Nat
  operation : Nat
  encoding : Nat
  key_len : Nat
  value_len : Nat
  key_bytes : List Nat
  value_bytes : List Nat
deriving DecidableEq, Repr

/-- The `Value` struct of `node.rs`: an encoding tag plus a byte payload. -/
structure Value where
  encoding : Encoding
  bytes : List Nat
deriving DecidableEq, Repr

/-- The in-memory `HashMap<String, Value>`: an association list from raw
UTF-8 key bytes to values (Rust `String` equality is byte equality). -/
abbrev KvMap := List (List Nat × Value)

/-- `HashMap::get`: value of the first (only) binding of `key`, if any. -/
def mapGet : KvMap → List Nat → Option Value
  | [], _ => none
  | (k, v) :: rest, key => if k = key then some v else mapGet rest key

/-- `HashMap::insert`: bind `key` to `v`, replacing any previous binding. -/
def mapInsert (m : KvMap) (key : List Nat) (v : Value) : KvMap :=
  (key, v) :: m.filter (fun p => p.1 ≠ key)

/-- `HashMap::remove`: drop the binding of `key` (a no-op if absent). -/
def mapRemove (m : KvMap) (key : List Nat) : KvMap :=
  m.filter (fun p => p.1 ≠ key)

/-- Little-endian byte decomposition of a `u32` value, as written by
`write_u32::<LittleEndian>` and `to_le_bytes`. -/
def leBytes4 (n : Nat) : List Nat :=
  [n % 256, n / 256 % 256, n / 65536 % 256, n / 16777216 % 256]

/-- `u32::from_le_bytes` / `read_u32::<LittleEndian>` on a byte list
(little-endian base-256 value). -/
def leU32 (l : List Nat) : Nat :=
  l.foldr (fun b acc => b + 256 * acc) 0

/-- One bit-step of the reflected CRC-32 used by the `crc32fast` crate
(polynomial `0xEDB88320`): shift right, conditionally xor the polynomial. -/
def crcStep (c : Nat) : Nat :=
  if c % 2 = 1 then (c / 2) ^^^ 0xEDB88320 else c / 2

/-- Eight bit-steps: one input byte's worth of CRC-32 processing. -/
def crcStep8 (c : Nat) : Nat :=
  crcStep (crcStep (crcStep (crcStep (crcStep (crcStep (crcStep (crcStep c)))))))

/-- `Hasher::update` with a single byte: xor the byte into the low bits of
the state, then run eight bit-steps. -/
def crc32Update (c b : Nat) : Nat :=
  crcStep8 (c ^^^ b)

/-- CRC-32 (IEEE, reflected) of a byte list: state starts at `0xFFFFFFFF`,
each byte is folded in, and the final state is complemented.  This is what
`crc32fast::Hasher::new` / `update` / `finalize` computes. -/
def crc32 (data : List Nat) : Nat :=
  (data.foldl crc32Update 0xFFFFFFFF) ^^^ 0xFFFFFFFF

/-- The byte sequence `compute_checksum` of `node.rs` feeds to the hasher:
magic, version, operation, encoding, the two little-endian lengths, then the
two payloads. -/
def checksumInput (f : Frame) : List Nat :=
  [f.magic, f.version, f.operation, f.encoding] ++
    leBytes4 f.key_len ++ leBytes4 f.value_len ++ f.key_bytes ++ f.value_bytes

/-- `compute_checksum` from `node.rs`. -/
def compute_checksum (f : Frame) : Nat :=
  crc32 (checksumInput f)

/-- `serialize` from `node.rs`: `total_len` is computed in `u32` arithmetic
(`% 2 ^ 32` models the wrap) as `1+1+1+1+4+4+key_len+value_len+4`, then the
frame is emitted little-endian: length prefix, four header bytes, the two
lengths, the payloads, and the trailing checksum. -/
def serialize (f : Frame) : List Nat :=
  let checksum := compute_checksum f
  let total_len := (1 + 1 + 1 + 1 + 4 + 4 + f.key_len + f.value_len + 4) % 2 ^ 32
  leBytes4 total_len ++ [f.magic, f.version, f.operation, f.encoding] ++
    leBytes4 f.key_len ++ leBytes4 f.value_len ++
    f.key_bytes ++ f.value_bytes ++ leBytes4 checksum

/-- `deserialize` from `node.rs`: sequential cursor reads (each failing read
is a `CorruptLog`), the structural `expected_len` check before the payload
reads, and the checksum comparison last. -/
def deserialize (total_len : Nat) (bytes : List Nat) : Except KVerror Frame :=
  match bytes with
  | magic :: version :: operation :: encoding :: rest =>
    if rest.length < 4 then .error .CorruptLog else
    let key_len := leU32 (rest.take 4)
    let rest1 := rest.drop 4
    if rest1.length < 4 then .error .CorruptLog else
    let value_len := leU32 (rest1.take 4)
    let rest2 := rest1.drop 4
    let expected_len := (1 + 1 + 1 + 1 + 4 + 4 + key_len + value_len + 4) % 2 ^ 32
    if total_len ≠ expected_len then .error .CorruptLog else
    if rest2.length < key_len then .error .CorruptLog else
    let key_bytes := rest2.take key_len
    let rest3 := rest2.drop key_len
    if rest3.length < value_len then .error .CorruptLog else
    let value_bytes := rest3.take value_len
    let rest4 := rest3.drop value_len
    if rest4.length < 4 then .error .CorruptLog else
    let original_checksum := leU32 (rest4.take 4)
    let frame : Frame :=
      ⟨total_len, magic, version, operation, encoding, key_len, value_len,
        key_bytes, value_bytes⟩
    if compute_checksum frame ≠ original_checksum then .error .CorruptLog
    else .ok frame
  | _ => .error .CorruptLog

/-- A UTF-8 continuation byte (`0x80 ..= 0xBF`). -/
def utf8Cont (b : Nat) : Bool :=
  decide (0x80 ≤ b ∧ b ≤ 0xBF)

/-- The UTF-8 validity check performed by Rust's `String::from_utf8`
(RFC 3629: no overlong forms, no surrogates, max `U+10FFFF`). -/
def validUtf8 : List Nat → Bool
  | [] => true
  | b :: rest =>
    if b < 0x80 then validUtf8 rest
    else if 0xC2 ≤ b ∧ b ≤ 0xDF then
      match rest with
      | c1 :: rest1 => utf8Cont c1 && validUtf8 rest1
      | [] => false
    else if 0xE0 ≤ b ∧ b ≤ 0xEF then
      match rest with
      | c1 :: c2 :: rest1 =>
        (if b = 0xE0 then decide (0xA0 ≤ c1 ∧ c1 ≤ 0xBF)
         else if b = 0xED then decide (0x80 ≤ c1 ∧ c1 ≤ 0x9F)
         else utf8Cont c1) && utf8Cont c2 && validUtf8 rest1
      | _ => false
    else if 0xF0 ≤ b ∧ b ≤ 0xF4 then
      match rest with
      | c1 :: c2 :: c3 :: rest1 =>
        (if b = 0xF0 then decide (0x90 ≤ c1 ∧ c1 ≤ 0xBF)
         else if b = 0xF4 then decide (0x80 ≤ c1 ∧ c1 ≤ 0x8F)
         else utf8Cont c1) && utf8Cont c2 && utf8Cont c3 && validUtf8 rest1
      | _ => false
    else false

/-- `Frame::new_set` from `node.rs` (keys are their UTF-8 bytes; the `as
u32` casts of the lengths wrap, modelled by `% 2 ^ 32`). -/
def Frame.new_set (key : List Nat) (value : Value) (magic version : Nat) : Frame :=
  { total_len := 0
    magic := magic
    version := version
    operation := 0x01
    encoding := value.encoding.toU8
    key_len := key.length % 2 ^ 32
    value_len := value.bytes.length % 2 ^ 32
    key_bytes := key
    value_bytes := value.bytes }

/-- `Frame::new_delete` from `node.rs`. -/
def Frame.new_delete (key : List Nat) (magic version : Nat) : Frame :=
  { total_len := 0
    magic := magic
    version := version
    operation := 0x02
    encoding := 0x00
    key_len := key.length % 2 ^ 32
    value_len := 0
    key_bytes := key
    value_bytes := [] }

/-- The per-frame `match frame.operation` body of the replay loop in
`build_kv_store`: Set frames validate the key's UTF-8 and the encoding tag
then insert; Delete frames validate the key's UTF-8 then remove; any other
operation byte is a corrupt log. -/
def applyFrame (m : KvMap) (frame : Frame) : Except KVerror KvMap :=
  if frame.operation = 0x01 then
    if validUtf8 frame.key_bytes then
      match Encoding.from_u8 frame.encoding with
      | .error e => .error e
      | .ok enc => .ok (mapInsert m frame.key_bytes ⟨enc, frame.value_bytes⟩)
    else .error .CorruptLog
  else if frame.operation = 0x02 then
    if validUtf8 frame.key_bytes then .ok (mapRemove m frame.key_bytes)
    else .error .CorruptLog
  else .error .CorruptLog

/-- The frame-reading loop of `build_kv_store`: fewer than 4 remaining
bytes is a clean end of log; otherwise the little-endian `total_len` is
read, exactly `total_len` further bytes must be available (else
`CorruptLog`), the frame is decoded and applied, and the loop continues. -/
def replayLoop (bytes : List Nat) (m : KvMap) : Except KVerror KvMap :=
  if bytes.length < 4 then .ok m
  else
    let total_len := leU32 (bytes.take 4)
    let rest := bytes.drop 4
    if rest.length < total_len then .error .CorruptLog
    else
      match deserialize total_len (rest.take total_len) with
      | .error e => .error e
      | .ok frame =>
        match applyFrame m frame with
        | .error e => .error e
        | .ok m1 => replayLoop (rest.drop total_len) m1
termination_by bytes.length
decreasing_by
  simp only [List.length_drop]
  omega

/-- The `KVstore` struct: the in-memory map, the log file's byte contents
(standing in for the file at the stored path), and the identity bytes. -/
structure KVstore where
  map : KvMap
  log : List Nat
  magic : Nat
  version : Nat
deriving DecidableEq, Repr

/-- `build_kv_store` from `node.rs`: replay the whole log into a fresh map
(or fail), keeping the log contents and identity. -/
def build_kv_store (contents : List Nat) (magic version : Nat) :
    Except KVerror KVstore :=
  match replayLoop contents [] with
  | .ok m => .ok ⟨m, contents, magic, version⟩
  | .error e => .error e

/-- `KVstore::open`: `some contents` is an existing log file (replayed),
`none` is a missing file (created empty, empty map). -/
def KVstore.openStore (contents : Option (List Nat)) (magic version : Nat) :
    Except KVerror KVstore :=
  match contents with
  | some data => build_kv_store data magic version
  | none => .ok ⟨[], [], magic, version⟩

/-- Outcome of one `append` call.  `success` appends the full byte
sequence; `failure w` models `write_all` failing after writing `w` (the map
must then be untouched). -/
inductive AppendResult where
  | success
  | failure (written : List Nat)

/-- `KVstore::append`: on success the file grows by exactly the given
bytes; on failure the error is `IOErr` and only the (arbitrary, possibly
empty) partially-written bytes reach the file. -/
def KVstore.append (s : KVstore) (value : List Nat) (r : AppendResult) :
    KVstore × Except KVerror Unit :=
  match r with
  | .success => ({ s with log := s.log ++ value }, .ok ())
  | .failure w => ({ s with log := s.log ++ w }, .error .IOErr)

/-- `KVstore::get`: pure lookup, `NotFound` on a miss. -/
def KVstore.get (s : KVstore) (key : List Nat) : Except KVerror Value :=
  match mapGet s.map key with
  | some v => .ok v
  | none => .error .NotFound

/-- `KVstore::set`: serialize a Set frame, append it first, and only on a
successful append insert into the map. -/
def KVstore.set (s : KVstore) (key : List Nat) (value : Value)
    (r : AppendResult) : KVstore × Except KVerror Unit :=
  let frame := Frame.new_set key value s.magic s.version
  let serialized := serialize frame
  match s.append serialized r with
  | (s1, .ok _) => ({ s1 with map := mapInsert s1.map key value }, .ok ())
  | (s1, .error e) => (s1, .error e)

/-- `KVstore::del`: serialize a Delete frame, append it first, and only on
a successful append remove from the map (no presence check). -/
def KVstore.del (s : KVstore) (key : List Nat) (r : AppendResult) :
    KVstore × Except KVerror Unit :=
  let frame := Frame.new_delete key s.magic s.version
  let serialized := serialize frame
  match s.append serialized r with
  | (s1, .ok _) => ({ s1 with map := mapRemove s1.map key }, .ok ())
  | (s1, .error e) => (s1, .error e)

/-- All entries of a byte list are in range (the Rust `u8` invariant). -/
def ByteOk (l : List Nat) : Prop := ∀ b ∈ l, b < 256

/-- Well-formedness of a `Frame` value as the Rust types guarantee it:
byte fields fit in `u8`, payload bytes fit in `u8`, the length fields equal
the payload lengths, and the whole frame fits in a `u32` length. -/
def FrameWF (f : Frame) : Prop :=
  f.magic < 256 ∧ f.version < 256 ∧ f.operation < 256 ∧ f.encoding < 256 ∧
  ByteOk f.key_bytes ∧ ByteOk f.value_bytes ∧
  f.key_len = f.key_bytes.length ∧ f.value_len = f.value_bytes.length ∧
  16 + f.key_bytes.length + f.value_bytes.length < 2 ^ 32

/-- Flip bit `j` of the byte at index `i`. -/
def flipBit (l : List Nat) (i j : Nat) : List Nat :=
  l.set i ((l.getD i 0) ^^^ 2 ^ j)

/-- The bytes of a serialized frame after the 4-byte `total_len` prefix. -/
def frameBody (f : Frame) : List Nat :=
  f.magic :: f.version :: f.operation :: f.encoding ::
    (leBytes4 f.key_len ++ (leBytes4 f.value_len ++
      (f.key_bytes ++ (f.value_bytes ++ leBytes4 (compute_checksum f)))))

/-- A logical mutation requested through the store facade. -/
inductive StoreOp where
  | setOp (key : List Nat) (v : Value)
  | delOp (key : List Nat)

/-- Run one facade operation with a successful append. -/
def runOp (s : KVstore) : StoreOp → KVstore
  | .setOp k v => (s.set k v .success).1
  | .delOp k => (s.del k .success).1

/-- Run a sequence of facade operations, each with a successful append. -/
def runOps (s : KVstore) (ops : List StoreOp) : KVstore :=
  ops.foldl runOp s

/-- The pure effect of a sequence of operations on the in-memory map. -/
def applyOps (m : KvMap) : List StoreOp → KvMap
  | [] => m
  | .setOp k v :: rest => applyOps (mapInsert m k v) rest
  | .delOp k :: rest => applyOps (mapRemove m k) rest

/-- The log bytes appended by a sequence of successful operations. -/
def logOf (magic version : Nat) : List StoreOp → List Nat
  | [] => []
  | .setOp k v :: rest =>
    serialize (Frame.new_set k v magic version) ++ logOf magic version rest
  | .delOp k :: rest =>
    serialize (Frame.new_delete k magic version) ++ logOf magic version rest

/-- Inputs the Rust types force on a facade operation: the key is a valid
UTF-8 string, payloads are bytes, and lengths fit the `u32` fields. -/
def StoreOpWF : StoreOp → Prop
  | .setOp k v => validUtf8 k = true ∧ ByteOk k ∧ ByteOk v.bytes ∧
      16 + k.length + v.bytes.length < 2 ^ 32
  | .delOp k => validUtf8 k = true ∧ ByteOk k ∧ 16 + k.length < 2 ^ 32

instance (l : List Nat) : Decidable (ByteOk l) := by
  unfold ByteOk; infer_instance

instance (f : Frame) : Decidable (FrameWF f) := by
  unfold FrameWF; infer_instance

instance (op : StoreOp) : Decidable (StoreOpWF op) := by
  cases op <;> unfold StoreOpWF <;> infer_instance

section ByteLemmas

lemma leBytes4_length (n : Nat) : (leBytes4 n).length = 4 := rfl

lemma leBytes4_ByteOk (n : Nat) : ByteOk (leBytes4 n) := by
  intro b hb
  simp only [leBytes4, List.mem_cons, List.not_mem_nil, or_false] at hb
  rcases hb with h | h | h | h <;> subst h <;> omega

lemma leU32_leBytes4 (n : Nat) : leU32 (leBytes4 n) = n % 2 ^ 32 := by
  simp only [leBytes4, leU32, List.foldr]
  omega

lemma leU32_lt (l : List Nat) (h4 : l.length = 4) (hb : ByteOk l) :
    leU32 l < 2 ^ 32 := by
  match l, h4 with
  | [a, b, c, d], _ =>
    have ha := hb a (by simp)
    have hbb := hb b (by simp)
    have hc := hb c (by simp)
    have hd := hb d (by simp)
    simp only [leU32, List.foldr]
    omega

lemma leU32_inj (l1 l2 : List Nat) (h1 : l1.length = 4) (h2 : l2.length = 4)
    (hb1 : ByteOk l1) (hb2 : ByteOk l2) (h : leU32 l1 = leU32 l2) : l1 = l2 := by
  match l1, l2, h1, h2 with
  | [a, b, c, d], [a', b', c', d'], _, _ =>
    have ha := hb1 a (by simp)
    have hbb := hb1 b (by simp)
    have hc := hb1 c (by simp)
    have hd := hb1 d (by simp)
    have ha' := hb2 a' (by simp)
    have hbb' := hb2 b' (by simp)
    have hc' := hb2 c' (by simp)
    have hd' := hb2 d' (by simp)
    simp only [leU32, List.foldr] at h
    have : a = a' ∧ b = b' ∧ c = c' ∧ d = d' := by omega
    simp [this.1, this.2.1, this.2.2.1, this.2.2.2]

lemma leBytes4_leU32 (l : List Nat) (h4 : l.length = 4) (hb : ByteOk l) :
    leBytes4 (leU32 l) = l := by
  apply leU32_inj _ _ (leBytes4_length _) h4 (leBytes4_ByteOk _) hb
  rw [leU32_leBytes4, Nat.mod_eq_of_lt (leU32_lt l h4 hb)]

lemma getD_list4 (l : List Nat) (h : l.length = 4) :
    [l.getD 0 0, l.getD 1 0, l.getD 2 0, l.getD 3 0] = l := by
  match l, h with
  | [a, b, c, d], _ => rfl

end ByteLemmas

section CrcLemmas

lemma crcStep_lt {c : Nat} (h : c < 2 ^ 32) : crcStep c < 2 ^ 32 := by
  unfold crcStep
  split
  · exact Nat.xor_lt_two_pow (by omega) (by norm_num)
  · omega

lemma xor_poly_ge {x : Nat} (h : x < 2 ^ 31) : 2 ^ 31 ≤ x ^^^ 0xEDB88320 := by
  apply Nat.testBit_implies_ge
  rw [Nat.testBit_xor, Nat.testBit_lt_two_pow h]
  decide

lemma crcStep_inj {c1 c2 : Nat} (h1 : c1 < 2 ^ 32) (h2 : c2 < 2 ^ 32)
    (h : crcStep c1 = crcStep c2) : c1 = c2 := by
  unfold crcStep at h
  by_cases p1 : c1 % 2 = 1 <;> by_cases p2 : c2 % 2 = 1 <;>
    simp only [p1, p2, if_true, if_false, reduceIte] at h
  · have := Nat.xor_left_inj.mp h
    omega
  · have hge := xor_poly_ge (x := c1 / 2) (by omega)
    rw [h] at hge
    omega
  · have hge := xor_poly_ge (x := c2 / 2) (by omega)
    rw [← h] at hge
    omega
  · omega

lemma crcStep8_lt {c : Nat} (h : c < 2 ^ 32) : crcStep8 c < 2 ^ 32 :=
  crcStep_lt (crcStep_lt (crcStep_lt (crcStep_lt
    (crcStep_lt (crcStep_lt (crcStep_lt (crcStep_lt h)))))))

lemma crcStep8_inj {c1 c2 : Nat} (h1 : c1 < 2 ^ 32) (h2 : c2 < 2 ^ 32)
    (h : crcStep8 c1 = crcStep8 c2) : c1 = c2 := by
  have l1 := crcStep_lt h1
  have l2 := crcStep_lt l1
  have l3 := crcStep_lt l2
  have l4 := crcStep_lt l3
  have l5 := crcStep_lt l4
  have l6 := crcStep_lt l5
  have l7 := crcStep_lt l6
  have m1 := crcStep_lt h2
  have m2 := crcStep_lt m1
  have m3 := crcStep_lt m2
  have m4 := crcStep_lt m3
  have m5 := crcStep_lt m4
  have m6 := crcStep_lt m5
  have m7 := crcStep_lt m6
  unfold crcStep8 at h
  exact crcStep_inj h1 h2 (crcStep_inj l1 m1 (crcStep_inj l2 m2
    (crcStep_inj l3 m3 (crcStep_inj l4 m4 (crcStep_inj l5 m5
      (crcStep_inj l6 m6 (crcStep_inj l7 m7 h)))))))

lemma crc32Update_lt {c b : Nat} (hc : c < 2 ^ 32) (hb : b < 2 ^ 32) :
    crc32Update c b < 2 ^ 32 :=
  crcStep8_lt (Nat.xor_lt_two_pow hc hb)

lemma crc32Update_inj_state {c1 c2 b : Nat} (h1 : c1 < 2 ^ 32)
    (h2 : c2 < 2 ^ 32) (hb : b < 2 ^ 32)
    (h : crc32Update c1 b = crc32Update c2 b) : c1 = c2 := by
  have := crcStep8_inj (Nat.xor_lt_two_pow h1 hb) (Nat.xor_lt_two_pow h2 hb) h
  exact Nat.xor_left_inj.mp this

lemma crc32Update_ne_byte {c b1 b2 : Nat} (hc : c < 2 ^ 32) (hb1 : b1 < 2 ^ 32)
    (hb2 : b2 < 2 ^ 32) (hne : b1 ≠ b2) :
    crc32Update c b1 ≠ crc32Update c b2 := by
  intro h
  have := crcStep8_inj (Nat.xor_lt_two_pow hc hb1) (Nat.xor_lt_two_pow hc hb2) h
  exact hne (Nat.xor_right_inj.mp this)

lemma foldl_crc32Update_lt (l : List Nat) :
    ∀ c, c < 2 ^ 32 → (∀ b ∈ l, b < 2 ^ 32) →
      l.foldl crc32Update c < 2 ^ 32 := by
  induction l with
  | nil => intro c hc _; simpa using hc
  | cons x xs ih =>
    intro c hc hb
    simp only [List.foldl_cons]
    exact ih _ (crc32Update_lt hc (hb x (by simp)))
      (fun b h => hb b (by simp [h]))

lemma foldl_crc32Update_ne (l : List Nat) :
    ∀ c1 c2, c1 < 2 ^ 32 → c2 < 2 ^ 32 → (∀ b ∈ l, b < 2 ^ 32) → c1 ≠ c2 →
      l.foldl crc32Update c1 ≠ l.foldl crc32Update c2 := by
  induction l with
  | nil => intro c1 c2 _ _ _ hne; simpa using hne
  | cons x xs ih =>
    intro c1 c2 h1 h2 hb hne
    simp only [List.foldl_cons]
    have hx := hb x (by simp)
    exact ih _ _ (crc32Update_lt h1 hx) (crc32Update_lt h2 hx)
      (fun b h => hb b (by simp [h]))
      (fun h => hne (crc32Update_inj_state h1 h2 hx h))

lemma crc32_lt (l : List Nat) (hb : ByteOk l) : crc32 l < 2 ^ 32 := by
  unfold crc32
  exact Nat.xor_lt_two_pow
    (foldl_crc32Update_lt l _ (by norm_num) (fun b h => by have := hb b h; omega))
    (by norm_num)

/-- Single-position sensitivity of CRC-32: changing exactly one byte of the
input (prefix and suffix unchanged) changes the checksum. -/
lemma crc32_ne_single_diff (p s : List Nat) (a b : Nat)
    (hp : ∀ x ∈ p, x < 2 ^ 32) (hs : ∀ x ∈ s, x < 2 ^ 32)
    (ha : a < 2 ^ 32) (hb : b < 2 ^ 32) (hne : a ≠ b) :
    crc32 (p ++ a :: s) ≠ crc32 (p ++ b :: s) := by
  unfold crc32
  intro h
  have h2 := Nat.xor_left_inj.mp h
  rw [List.foldl_append, List.foldl_append, List.foldl_cons, List.foldl_cons] at h2
  have hc : p.foldl crc32Update 0xFFFFFFFF < 2 ^ 32 :=
    foldl_crc32Update_lt p _ (by norm_num) hp
  exact foldl_crc32Update_ne s _ _ (crc32Update_lt hc ha) (crc32Update_lt hc hb)
    hs (crc32Update_ne_byte hc ha hb hne) h2

end CrcLemmas

section CodecLemmas

lemma serialize_shape (f : Frame) :
    serialize f =
      leBytes4 ((1 + 1 + 1 + 1 + 4 + 4 + f.key_len + f.value_len + 4) % 2 ^ 32) ++
        frameBody f := by
  simp [serialize, frameBody]

lemma frameBody_length (f : Frame) :
    (frameBody f).length = 16 + f.key_bytes.length + f.value_bytes.length := by
  simp only [frameBody, List.length_cons, List.length_append, leBytes4_length]
  omega

lemma serialize_length (f : Frame) :
    (serialize f).length = 20 + f.key_bytes.length + f.value_bytes.length := by
  rw [serialize_shape]
  simp only [List.length_append, leBytes4_length, frameBody_length]
  omega

lemma checksumInput_ByteOk (f : Frame) (hf : FrameWF f) :
    ByteOk (checksumInput f) := by
  obtain ⟨hm, hv, ho, he, hk, hvb, -, -, -⟩ := hf
  intro x hx
  unfold checksumInput at hx
  rcases List.mem_append.mp hx with hx | hx
  · rcases List.mem_append.mp hx with hx | hx
    · rcases List.mem_append.mp hx with hx | hx
      · rcases List.mem_append.mp hx with hx | hx
        · simp only [List.mem_cons, List.not_mem_nil, or_false] at hx
          rcases hx with rfl | rfl | rfl | rfl
          · omega
          · omega
          · omega
          · omega
        · exact leBytes4_ByteOk _ x hx
      · exact leBytes4_ByteOk _ x hx
    · exact hk x hx
  · exact hvb x hx

lemma compute_checksum_set_total (f : Frame) (t : Nat) :
    compute_checksum { f with total_len := t } = compute_checksum f := rfl

/-- Structural characterization of `deserialize` on a frame body whose
length fields are consistent with the payloads: everything reduces to the
final checksum comparison. -/
lemma deserialize_split (klb vlb key value ckb : List Nat) (a b c d T : Nat)
    (hk4 : klb.length = 4) (hv4 : vlb.length = 4) (hc4 : ckb.length = 4)
    (hkey : key.length = leU32 klb) (hval : value.length = leU32 vlb)
    (hT : (1 + 1 + 1 + 1 + 4 + 4 + leU32 klb + leU32 vlb + 4) % 2 ^ 32 = T) :
    deserialize T (a :: b :: c :: d :: (klb ++ (vlb ++ (key ++ (value ++ ckb))))) =
      if compute_checksum ⟨T, a, b, c, d, leU32 klb, leU32 vlb, key, value⟩ = leU32 ckb
      then .ok ⟨T, a, b, c, d, leU32 klb, leU32 vlb, key, value⟩
      else .error .CorruptLog := by
  simp only [deserialize]
  rw [List.take_left' hk4, List.drop_left' hk4,
      List.take_left' hv4, List.drop_left' hv4,
      List.take_left' hkey, List.drop_left' hkey,
      List.take_left' hval, List.drop_left' hval]
  rw [if_neg (by simp only [List.length_append, hk4, hv4, hc4, hkey, hval]; omega),
      if_neg (by simp only [List.length_append, hk4, hv4, hc4, hkey, hval]; omega),
      if_neg (by omega),
      if_neg (by simp only [List.length_append, hk4, hv4, hc4, hkey, hval]; omega),
      if_neg (by simp only [List.length_append, hk4, hv4, hc4, hkey, hval]; omega),
      if_neg (by simp only [hc4]; omega)]
  rw [List.take_of_length_le hc4.le]
  by_cases h : compute_checksum
      ⟨T, a, b, c, d, leU32 klb, leU32 vlb, key, value⟩ = leU32 ckb
  · rw [if_neg (not_not_intro h), if_pos h]
  · rw [if_pos h, if_neg h]

/-- When the declared `total_len` disagrees with the length recomputed from
the parsed `key_len`/`value_len`, `deserialize` fails with `CorruptLog`
before ever touching the payload bytes (which may be arbitrary). -/
lemma deserialize_badlen (klb vlb rest2 : List Nat) (a b c d T : Nat)
    (hk4 : klb.length = 4) (hv4 : vlb.length = 4)
    (hT : (1 + 1 + 1 + 1 + 4 + 4 + leU32 klb + leU32 vlb + 4) % 2 ^ 32 ≠ T) :
    deserialize T (a :: b :: c :: d :: (klb ++ (vlb ++ rest2))) =
      .error .CorruptLog := by
  simp only [deserialize]
  rw [List.take_left' hk4, List.drop_left' hk4,
      List.take_left' hv4, List.drop_left' hv4]
  rw [if_neg (by simp only [List.length_append, hk4, hv4]; omega),
      if_neg (by simp only [List.length_append, hk4, hv4]; omega),
      if_pos (by omega)]

/-- Decode-after-encode on the body bytes: a well-formed frame's body
deserializes to the frame itself, with `total_len` filled in. -/
lemma deserialize_frameBody (f : Frame) (hf : FrameWF f) :
    deserialize (16 + f.key_len + f.value_len) (frameBody f) =
      .ok { f with total_len := 16 + f.key_len + f.value_len } := by
  obtain ⟨hm, hv, ho, he, hkb, hvb, hkl, hvl, hfit⟩ := hf
  have hklU : leU32 (leBytes4 f.key_len) = f.key_len := by
    rw [leU32_leBytes4]; exact Nat.mod_eq_of_lt (by omega)
  have hvlU : leU32 (leBytes4 f.value_len) = f.value_len := by
    rw [leU32_leBytes4]; exact Nat.mod_eq_of_lt (by omega)
  have hck : leU32 (leBytes4 (compute_checksum f)) = compute_checksum f := by
    rw [leU32_leBytes4]
    exact Nat.mod_eq_of_lt (crc32_lt _ (checksumInput_ByteOk f
      ⟨hm, hv, ho, he, hkb, hvb, hkl, hvl, hfit⟩))
  unfold frameBody
  rw [deserialize_split _ _ _ _ _ _ _ _ _ _
      (leBytes4_length _) (leBytes4_length _) (leBytes4_length _)
      (by rw [hklU]; exact hkl.symm) (by rw [hvlU]; exact hvl.symm)
      (by rw [hklU, hvlU]; omega)]
  rw [hklU, hvlU, hck]
  rw [if_pos (compute_checksum_set_total f _)]

lemma applyFrame_set_total (m : KvMap) (f : Frame) (t : Nat) :
    applyFrame m { f with total_len := t } = applyFrame m f := rfl

lemma replayLoop_eq (bytes : List Nat) (m : KvMap) :
    replayLoop bytes m =
      if bytes.length < 4 then .ok m
      else
        let total_len := leU32 (bytes.take 4)
        let rest := bytes.drop 4
        if rest.length < total_len then .error .CorruptLog
        else
          match deserialize total_len (rest.take total_len) with
          | .error e => .error e
          | .ok frame =>
            match applyFrame m frame with
            | .error e => .error e
            | .ok m1 => replayLoop (rest.drop total_len) m1 := by
  rw [replayLoop]

/-- Replaying a log that starts with a serialized well-formed frame whose
application succeeds: the frame is consumed and replay continues. -/
lemma replayLoop_frame_ok (f : Frame) (hf : FrameWF f) (tail : List Nat)
    (m m1 : KvMap) (hap : applyFrame m f = .ok m1) :
    replayLoop (serialize f ++ tail) m = replayLoop tail m1 := by
  have hf' := hf
  obtain ⟨hm, hv, ho, he, hkb, hvb, hkl, hvl, hfit⟩ := hf'
  have hT32 : 16 + f.key_len + f.value_len < 2 ^ 32 := by omega
  have hTmod : (1 + 1 + 1 + 1 + 4 + 4 + f.key_len + f.value_len + 4) % 2 ^ 32 =
      16 + f.key_len + f.value_len := by omega
  have hbl : (frameBody f).length = 16 + f.key_len + f.value_len := by
    rw [frameBody_length]; omega
  rw [replayLoop_eq, serialize_shape, List.append_assoc, hTmod]
  rw [List.take_left' (leBytes4_length _), List.drop_left' (leBytes4_length _),
      leU32_leBytes4, Nat.mod_eq_of_lt hT32]
  rw [if_neg (by simp only [List.length_append, leBytes4_length]; omega)]
  rw [if_neg (by simp only [List.length_append, hbl]; omega)]
  rw [List.take_left' hbl, List.drop_left' hbl]
  rw [deserialize_frameBody f hf]
  simp only [applyFrame_set_total, hap]

/-- Replaying a log that starts with a serialized well-formed frame whose
application fails: the whole replay fails with that error. -/
lemma replayLoop_frame_err (f : Frame) (hf : FrameWF f) (tail : List Nat)
    (m : KvMap) (e : KVerror) (hap : applyFrame m f = .error e) :
    replayLoop (serialize f ++ tail) m = .error e := by
  have hf' := hf
  obtain ⟨hm, hv, ho, he, hkb, hvb, hkl, hvl, hfit⟩ := hf'
  have hT32 : 16 + f.key_len + f.value_len < 2 ^ 32 := by omega
  have hTmod : (1 + 1 + 1 + 1 + 4 + 4 + f.key_len + f.value_len + 4) % 2 ^ 32 =
      16 + f.key_len + f.value_len := by omega
  have hbl : (frameBody f).length = 16 + f.key_len + f.value_len := by
    rw [frameBody_length]; omega
  rw [replayLoop_eq, serialize_shape, List.append_assoc, hTmod]
  rw [List.take_left' (leBytes4_length _), List.drop_left' (leBytes4_length _),
      leU32_leBytes4, Nat.mod_eq_of_lt hT32]
  rw [if_neg (by simp only [List.length_append, leBytes4_length]; omega)]
  rw [if_neg (by simp only [List.length_append, hbl]; omega)]
  rw [List.take_left' hbl, List.drop_left' hbl]
  rw [deserialize_frameBody f hf]
  simp only [applyFrame_set_total, hap]

end CodecLemmas

section ApplyLemmas

lemma from_u8_toU8 (e : Encoding) : Encoding.from_u8 e.toU8 = .ok e := by
  cases e <;> rfl

lemma applyFrame_new_set (m : KvMap) (key : List Nat) (v : Value)
    (magic version : Nat) (hu : validUtf8 key = true) :
    applyFrame m (Frame.new_set key v magic version) = .ok (mapInsert m key v) := by
  simp [applyFrame, Frame.new_set, hu, from_u8_toU8]

lemma applyFrame_new_delete (m : KvMap) (key : List Nat) (magic version : Nat)
    (hu : validUtf8 key = true) :
    applyFrame m (Frame.new_delete key magic version) = .ok (mapRemove m key) := by
  simp [applyFrame, Frame.new_delete, hu]

lemma applyFrame_delete_op (m : KvMap) (f : Frame) (hop : f.operation = 0x02)
    (hu : validUtf8 f.key_bytes = true) :
    applyFrame m f = .ok (mapRemove m f.key_bytes) := by
  simp [applyFrame, hop, hu]

lemma applyFrame_badutf8 (m : KvMap) (f : Frame)
    (hop : f.operation = 0x01 ∨ f.operation = 0x02)
    (hu : validUtf8 f.key_bytes = false) :
    applyFrame m f = .error .CorruptLog := by
  rcases hop with h | h <;> simp [applyFrame, h, hu]

lemma applyFrame_badenc (m : KvMap) (f : Frame) (hop : f.operation = 0x01)
    (hu : validUtf8 f.key_bytes = true)
    (h0 : f.encoding ≠ 0x00) (h1 : f.encoding ≠ 0x01) (h2 : f.encoding ≠ 0x02) :
    applyFrame m f = .error .Encoding := by
  simp [applyFrame, hop, hu, Encoding.from_u8, h0, h1, h2]

lemma mapGet_insert_self (m : KvMap) (k : List Nat) (v : Value) :
    mapGet (mapInsert m k v) k = some v := by
  simp [mapInsert, mapGet]

lemma mapGet_remove_self (m : KvMap) (k : List Nat) :
    mapGet (mapRemove m k) k = none := by
  induction m with
  | nil => rfl
  | cons hd tl ih =>
    obtain ⟨a, b⟩ := hd
    by_cases h : a = k
    · simpa [mapRemove, List.filter_cons, h] using ih
    · simpa [mapRemove, List.filter_cons, h, mapGet] using ih

lemma mapRemove_absent (m : KvMap) (k : List Nat) (h : mapGet m k = none) :
    mapRemove m k = m := by
  induction m with
  | nil => rfl
  | cons hd tl ih =>
    obtain ⟨a, b⟩ := hd
    by_cases hh : a = k
    · simp [mapGet, hh] at h
    · simp only [mapGet, if_neg hh] at h
      simp [mapRemove, List.filter_cons, hh] at ih ⊢
      exact ih h

end ApplyLemmas

section StoreLemmas

lemma new_set_WF (k : List Nat) (v : Value) (magic version : Nat)
    (hm : magic < 256) (hv : version < 256) (hk : ByteOk k)
    (hb : ByteOk v.bytes) (hfit : 16 + k.length + v.bytes.length < 2 ^ 32) :
    FrameWF (Frame.new_set k v magic version) := by
  refine ⟨hm, hv, by simp [Frame.new_set], ?_, hk, hb, ?_, ?_, ?_⟩
  · obtain ⟨e, bs⟩ := v
    cases e <;> simp [Frame.new_set, Encoding.toU8]
  · simp only [Frame.new_set]
    exact Nat.mod_eq_of_lt (by omega)
  · simp only [Frame.new_set]
    exact Nat.mod_eq_of_lt (by omega)
  · simpa [Frame.new_set] using hfit

lemma new_delete_WF (k : List Nat) (magic version : Nat)
    (hm : magic < 256) (hv : version < 256) (hk : ByteOk k)
    (hfit : 16 + k.length < 2 ^ 32) :
    FrameWF (Frame.new_delete k magic version) := by
  refine ⟨hm, hv, by simp [Frame.new_delete], by simp [Frame.new_delete],
    hk, ?_, ?_, ?_, ?_⟩
  · intro b hb; simp [Frame.new_delete] at hb
  · simp only [Frame.new_delete]
    exact Nat.mod_eq_of_lt (by omega)
  · simp [Frame.new_delete]
  · simpa [Frame.new_delete] using hfit

lemma set_success_eq (s : KVstore) (k : List Nat) (v : Value) :
    s.set k v .success =
      (⟨mapInsert s.map k v,
        s.log ++ serialize (Frame.new_set k v s.magic s.version),
        s.magic, s.version⟩, .ok ()) := rfl

lemma del_success_eq (s : KVstore) (k : List Nat) :
    s.del k .success =
      (⟨mapRemove s.map k,
        s.log ++ serialize (Frame.new_delete k s.magic s.version),
        s.magic, s.version⟩, .ok ()) := rfl

lemma runOps_eq (ops : List StoreOp) :
    ∀ s : KVstore,
      runOps s ops =
        ⟨applyOps s.map ops, s.log ++ logOf s.magic s.version ops,
          s.magic, s.version⟩ := by
  induction ops with
  | nil =>
    intro s
    simp [runOps, applyOps, logOf]
  | cons op rest ih =>
    intro s
    cases op with
    | setOp k v =>
      have h1 : runOps s (.setOp k v :: rest) =
          runOps (⟨mapInsert s.map k v,
            s.log ++ serialize (Frame.new_set k v s.magic s.version),
            s.magic, s.version⟩ : KVstore) rest := by
        simp [runOps, runOp, set_success_eq]
      rw [h1, ih]
      simp [applyOps, logOf, List.append_assoc]
    | delOp k =>
      have h1 : runOps s (.delOp k :: rest) =
          runOps (⟨mapRemove s.map k,
            s.log ++ serialize (Frame.new_delete k s.magic s.version),
            s.magic, s.version⟩ : KVstore) rest := by
        simp [runOps, runOp, del_success_eq]
      rw [h1, ih]
      simp [applyOps, logOf, List.append_assoc]

/-- Replay of a log produced by well-formed successful operations,
followed by arbitrary further bytes: the operations are replayed into the
map and replay continues on the remaining bytes. -/
lemma replayLoop_logOf (magic version : Nat) (hm : magic < 256)
    (hv : version < 256) (ops : List StoreOp)
    (hops : ∀ op ∈ ops, StoreOpWF op) :
    ∀ (m : KvMap) (tail : List Nat),
      replayLoop (logOf magic version ops ++ tail) m =
        replayLoop tail (applyOps m ops) := by
  induction ops with
  | nil =>
    intro m tail
    simp [logOf, applyOps]
  | cons op rest ih =>
    intro m tail
    have hop := hops op (List.mem_cons_self op rest)
    have hrest : ∀ o ∈ rest, StoreOpWF o :=
      fun o h => hops o (List.mem_cons_of_mem op h)
    cases op with
    | setOp k v =>
      rw [show logOf magic version (.setOp k v :: rest) =
        serialize (Frame.new_set k v magic version) ++
          logOf magic version rest from rfl]
      rw [List.append_assoc]
      rw [replayLoop_frame_ok _
        (new_set_WF k v magic version hm hv hop.2.1 hop.2.2.1 hop.2.2.2) _ _ _
        (applyFrame_new_set m k v magic version hop.1)]
      rw [ih hrest]
      rfl
    | delOp k =>
      rw [show logOf magic version (.delOp k :: rest) =
        serialize (Frame.new_delete k magic version) ++
          logOf magic version rest from rfl]
      rw [List.append_assoc]
      rw [replayLoop_frame_ok _
        (new_delete_WF k magic version hm hv hop.2.1 hop.2.2) _ _ _
        (applyFrame_new_delete m k magic version hop.1)]
      rw [ih hrest]
      rfl

lemma replayLoop_nil (m : KvMap) : replayLoop [] m = .ok m := by
  rw [replayLoop_eq]
  simp

end StoreLemmas

section MoreCodecLemmas

lemma serialize_take4 (f : Frame) :
    (serialize f).take 4 =
      leBytes4 ((1 + 1 + 1 + 1 + 4 + 4 + f.key_len + f.value_len + 4) % 2 ^ 32) := by
  rw [serialize_shape]
  exact List.take_left' (leBytes4_length _)

lemma serialize_drop4 (f : Frame) : (serialize f).drop 4 = frameBody f := by
  rw [serialize_shape]
  exact List.drop_left' (leBytes4_length _)

/-- `deserialize` on a structurally consistent body with all fields
explicit: reduces to the checksum comparison. -/
lemma deserialize_fields (mg vs op en kl vl : Nat) (key value : List Nat)
    (ck : Nat) (hkl : kl = key.length) (hvl : vl = value.length)
    (hfit : 16 + key.length + value.length < 2 ^ 32) (hck : ck < 2 ^ 32) :
    deserialize (16 + kl + vl)
      (mg :: vs :: op :: en :: (leBytes4 kl ++ (leBytes4 vl ++
        (key ++ (value ++ leBytes4 ck))))) =
      if compute_checksum ⟨16 + kl + vl, mg, vs, op, en, kl, vl, key, value⟩ = ck
      then .ok ⟨16 + kl + vl, mg, vs, op, en, kl, vl, key, value⟩
      else .error .CorruptLog := by
  have hklU : leU32 (leBytes4 kl) = kl := by
    rw [leU32_leBytes4]; exact Nat.mod_eq_of_lt (by omega)
  have hvlU : leU32 (leBytes4 vl) = vl := by
    rw [leU32_leBytes4]; exact Nat.mod_eq_of_lt (by omega)
  have hckU : leU32 (leBytes4 ck) = ck := by
    rw [leU32_leBytes4]; exact Nat.mod_eq_of_lt hck
  rw [deserialize_split _ _ _ _ _ _ _ _ _ _
      (leBytes4_length _) (leBytes4_length _) (leBytes4_length _)
      (by rw [hklU, hkl]) (by rw [hvlU, hvl])
      (by rw [hklU, hvlU]; omega)]
  rw [hklU, hvlU, hckU]

end MoreCodecLemmas

/-- Claim C1: for a store reached from a fresh empty store by a sequence of
successful well-formed set/del operations, `set(key, v)` with a successful
append returns success, a subsequent `get(key)` returns `v`, and opening a
new store from the same log file succeeds and yields exactly the original
store (in particular an equal in-memory map): replaying the log reproduces
the state built by the sequence of successful operations. -/
theorem C1_append_then_visible (magic version : Nat) (hm : magic < 256)
    (hv : version < 256) (ops : List StoreOp)
    (hops : ∀ op ∈ ops, StoreOpWF op) (key : List Nat) (v : Value)
    (hkv : StoreOpWF (.setOp key v)) :
    ((runOps ⟨[], [], magic, version⟩ ops).set key v .success).2 = .ok () ∧
    (((runOps ⟨[], [], magic, version⟩ ops).set key v .success).1).get key =
      .ok v ∧
    KVstore.openStore
        (some (((runOps ⟨[], [], magic, version⟩ ops).set key v .success).1).log)
        magic version =
      .ok ((runOps ⟨[], [], magic, version⟩ ops).set key v .success).1 := by
  have hops' : ∀ op ∈ ops ++ [StoreOp.setOp key v], StoreOpWF op := by
    intro op h
    rcases List.mem_append.mp h with h | h
    · exact hops op h
    · simp only [List.mem_singleton] at h
      subst h
      exact hkv
  have e1 : ((runOps ⟨[], [], magic, version⟩ ops).set key v .success).1 =
      runOps ⟨[], [], magic, version⟩ (ops ++ [StoreOp.setOp key v]) := by
    simp [runOps, List.foldl_append, runOp]
  have e2 := runOps_eq (ops ++ [StoreOp.setOp key v]) ⟨[], [], magic, version⟩
  simp only [List.nil_append] at e2
  refine ⟨rfl, ?_, ?_⟩
  · rw [set_success_eq]
    simp [KVstore.get, mapGet_insert_self]
  · rw [e1, e2]
    simp only [KVstore.openStore, build_kv_store]
    rw [← List.append_nil (logOf magic version (ops ++ [StoreOp.setOp key v]))]
    rw [replayLoop_logOf magic version hm hv _ hops']
    rw [replayLoop_nil]

theorem C1_witness :
    (∀ op ∈ ([] : List StoreOp), StoreOpWF op) ∧
    StoreOpWF (.setOp [97] ⟨.String, [120]⟩) ∧
    (((runOps ⟨[], [], 170, 1⟩ []).set [97] ⟨.String, [120]⟩ .success).2 =
        .ok () ∧
     (((runOps ⟨[], [], 170, 1⟩ []).set [97] ⟨.String, [120]⟩ .success).1).get
        [97] = .ok ⟨.String, [120]⟩ ∧
     KVstore.openStore
         (some (((runOps ⟨[], [], 170, 1⟩ []).set [97] ⟨.String, [120]⟩
           .success).1).log) 170 1 =
       .ok ((runOps ⟨[], [], 170, 1⟩ []).set [97] ⟨.String, [120]⟩
         .success).1) :=
  ⟨by decide, by decide,
    C1_append_then_visible 170 1 (by decide) (by decide) [] (by decide)
      [97] ⟨.String, [120]⟩ (by decide)⟩

/-- Claim C2: replay is last-writer-wins in the log's physical order: the
log Set(k,v1), Set(k,v2), Delete(k), Set(k,v3) replays to the map binding
`k` to `v3`; a Delete after a Set removes the key; a Set after a Delete
reinstates it; and a Delete of an absent key replays as a no-op. -/
theorem C2_last_writer_wins (magic version : Nat) (k : List Nat)
    (v1 v2 v3 : Value) (hm : magic < 256) (hv : version < 256)
    (hu : validUtf8 k = true) (hkb : ByteOk k)
    (hb1 : ByteOk v1.bytes) (hf1 : 16 + k.length + v1.bytes.length < 2 ^ 32)
    (hb2 : ByteOk v2.bytes) (hf2 : 16 + k.length + v2.bytes.length < 2 ^ 32)
    (hb3 : ByteOk v3.bytes) (hf3 : 16 + k.length + v3.bytes.length < 2 ^ 32) :
    (replayLoop
        (serialize (Frame.new_set k v1 magic version) ++
          (serialize (Frame.new_set k v2 magic version) ++
            (serialize (Frame.new_delete k magic version) ++
              serialize (Frame.new_set k v3 magic version)))) [] =
      .ok [(k, v3)] ∧ mapGet [(k, v3)] k = some v3) ∧
    (∀ m : KvMap, mapGet (mapRemove (mapInsert m k v1) k) k = none) ∧
    (∀ m : KvMap, mapGet (mapInsert (mapRemove m k) k v3) k = some v3) ∧
    (∀ m : KvMap, mapGet m k = none →
      replayLoop (serialize (Frame.new_delete k magic version)) m = .ok m) := by
  have hfd : 16 + k.length < 2 ^ 32 := by omega
  have w1 := new_set_WF k v1 magic version hm hv hkb hb1 hf1
  have w2 := new_set_WF k v2 magic version hm hv hkb hb2 hf2
  have w3 := new_set_WF k v3 magic version hm hv hkb hb3 hf3
  have wd := new_delete_WF k magic version hm hv hkb hfd
  refine ⟨⟨?_, ?_⟩, ?_, ?_, ?_⟩
  · rw [replayLoop_frame_ok _ w1 _ _ _
      (applyFrame_new_set [] k v1 magic version hu)]
    rw [replayLoop_frame_ok _ w2 _ _ _
      (applyFrame_new_set _ k v2 magic version hu)]
    rw [replayLoop_frame_ok _ wd _ _ _
      (applyFrame_new_delete _ k magic version hu)]
    rw [← List.append_nil (serialize (Frame.new_set k v3 magic version))]
    rw [replayLoop_frame_ok _ w3 _ _ _
      (applyFrame_new_set _ k v3 magic version hu)]
    rw [replayLoop_nil]
    simp [mapInsert, mapRemove]
  · simp [mapGet]
  · intro m
    exact mapGet_remove_self (mapInsert m k v1) k
  · intro m
    exact mapGet_insert_self (mapRemove m k) k v3
  · intro m h
    rw [← List.append_nil (serialize (Frame.new_delete k magic version))]
    rw [replayLoop_frame_ok _ wd _ _ _
      (applyFrame_new_delete m k magic version hu)]
    rw [mapRemove_absent m k h, replayLoop_nil]

theorem C2_witness :
    ((170 : Nat) < 256 ∧ (1 : Nat) < 256 ∧ validUtf8 [97] = true ∧
      ByteOk [97]) ∧
    (replayLoop
        (serialize (Frame.new_set [97] ⟨.String, [1]⟩ 170 1) ++
          (serialize (Frame.new_set [97] ⟨.String, [2]⟩ 170 1) ++
            (serialize (Frame.new_delete [97] 170 1) ++
              serialize (Frame.new_set [97] ⟨.String, [3]⟩ 170 1)))) [] =
      .ok [([97], ⟨.String, [3]⟩)] ∧
      mapGet [([97], ⟨.String, [3]⟩)] [97] = some ⟨.String, [3]⟩) :=
  ⟨⟨by decide, by decide, by decide, by decide⟩,
    (C2_last_writer_wins 170 1 [97] ⟨.String, [1]⟩ ⟨.String, [2]⟩
      ⟨.String, [3]⟩ (by decide) (by decide) (by decide) (by decide)
      (by decide) (by decide) (by decide) (by decide) (by decide)
      (by decide)).1⟩

/-- Claim C3: decode after encode is the identity on valid logical
operations: for a Set or Delete tuple (operation, key, value, magic,
version), the encoded frame's `total_len` prefix decodes to the body
length, decoding the body yields a frame whose every field equals the
encoded data (operation tag, encoding tag, lengths, payloads, magic,
version), and the recomputed checksum of the decoded frame equals the
checksum of the encoded frame. -/
theorem C3_roundtrip (key : List Nat) (v : Value) (magic version : Nat)
    (hm : magic < 256) (hver : version < 256) (hkb : ByteOk key)
    (hvb : ByteOk v.bytes) (hfit : 16 + key.length + v.bytes.length < 2 ^ 32) :
    (leU32 ((serialize (Frame.new_set key v magic version)).take 4) =
       16 + key.length + v.bytes.length ∧
     deserialize (16 + key.length + v.bytes.length)
         ((serialize (Frame.new_set key v magic version)).drop 4) =
       .ok ⟨16 + key.length + v.bytes.length, magic, version, 0x01,
         v.encoding.toU8, key.length, v.bytes.length, key, v.bytes⟩ ∧
     compute_checksum ⟨16 + key.length + v.bytes.length, magic, version, 0x01,
         v.encoding.toU8, key.length, v.bytes.length, key, v.bytes⟩ =
       compute_checksum (Frame.new_set key v magic version)) ∧
    (leU32 ((serialize (Frame.new_delete key magic version)).take 4) =
       16 + key.length ∧
     deserialize (16 + key.length)
         ((serialize (Frame.new_delete key magic version)).drop 4) =
       .ok ⟨16 + key.length, magic, version, 0x02, 0x00, key.length, 0,
         key, []⟩ ∧
     compute_checksum ⟨16 + key.length, magic, version, 0x02, 0x00,
         key.length, 0, key, []⟩ =
       compute_checksum (Frame.new_delete key magic version)) := by
  have hmodk : key.length % 4294967296 = key.length := by omega
  have hmodv : v.bytes.length % 4294967296 = v.bytes.length := by omega
  have hkls : (Frame.new_set key v magic version).key_len = key.length := by
    show key.length % 2 ^ 32 = key.length
    omega
  have hvls : (Frame.new_set key v magic version).value_len =
      v.bytes.length := by
    show v.bytes.length % 2 ^ 32 = v.bytes.length
    omega
  have hkld : (Frame.new_delete key magic version).key_len = key.length := by
    show key.length % 2 ^ 32 = key.length
    omega
  have hvld : (Frame.new_delete key magic version).value_len = 0 := rfl
  have wfs := new_set_WF key v magic version hm hver hkb hvb hfit
  have wfd := new_delete_WF key magic version hm hver hkb (by omega)
  constructor
  · refine ⟨?_, ?_, ?_⟩
    · rw [serialize_take4, leU32_leBytes4]
      simp only [Frame.new_set]
      omega
    · have h := deserialize_frameBody (Frame.new_set key v magic version) wfs
      rw [hkls, hvls] at h
      rw [serialize_drop4, h]
      simp [Frame.new_set, hmodk, hmodv]
    · simp [compute_checksum, checksumInput, Frame.new_set, hmodk, hmodv]
  · refine ⟨?_, ?_, ?_⟩
    · rw [serialize_take4, leU32_leBytes4]
      simp only [Frame.new_delete]
      omega
    · have h := deserialize_frameBody (Frame.new_delete key magic version) wfd
      rw [hkld, hvld] at h
      rw [show (16 : Nat) + key.length + 0 = 16 + key.length from by omega] at h
      rw [serialize_drop4, h]
      simp [Frame.new_delete, hmodk]
    · simp [compute_checksum, checksumInput, Frame.new_delete, hmodk]

theorem C3_witness :
    (ByteOk [97] ∧ ByteOk [120, 121] ∧ (16 + 1 + 2 : Nat) < 2 ^ 32) ∧
    (leU32 ((serialize (Frame.new_set [97] ⟨.String, [120, 121]⟩ 170 1)).take 4) =
       16 + 1 + 2 ∧
     deserialize (16 + 1 + 2)
         ((serialize (Frame.new_set [97] ⟨.String, [120, 121]⟩ 170 1)).drop 4) =
       .ok ⟨16 + 1 + 2, 170, 1, 0x01, Encoding.toU8 .String, 1, 2,
         [97], [120, 121]⟩) :=
  ⟨⟨by decide, by decide, by decide⟩, by
    have h := C3_roundtrip [97] ⟨.String, [120, 121]⟩ 170 1 (by decide)
      (by decide) (by decide) (by decide) (by decide)
    exact ⟨h.1.1, h.1.2.1⟩⟩

/-- Claim C4: `set` and `del` append the serialized frame to the log and
only then mutate the map: on a successful append the log grows by exactly
the serialized frame and the map is updated; when the append fails the
result is an `IOErr` error and the in-memory map is left completely
unchanged (whatever bytes the failed `write_all` managed to emit). -/
theorem C4_append_before_mutate (s : KVstore) (key : List Nat) (v : Value)
    (w : List Nat) :
    ((s.set key v (.failure w)).2 = .error .IOErr ∧
     (s.set key v (.failure w)).1.map = s.map) ∧
    ((s.set key v .success).1.log =
       s.log ++ serialize (Frame.new_set key v s.magic s.version) ∧
     (s.set key v .success).1.map = mapInsert s.map key v) ∧
    ((s.del key (.failure w)).2 = .error .IOErr ∧
     (s.del key (.failure w)).1.map = s.map) ∧
    ((s.del key .success).1.log =
       s.log ++ serialize (Frame.new_delete key s.magic s.version) ∧
     (s.del key .success).1.map = mapRemove s.map key) :=
  ⟨⟨rfl, rfl⟩, ⟨rfl, rfl⟩, ⟨rfl, rfl⟩, ⟨rfl, rfl⟩⟩

/-- Claim C5: when fewer than 4 bytes remain before the next frame's
`total_len`, replay stops cleanly with the map built so far; when the
4-byte `total_len` was read but fewer than `total_len` bytes follow,
replay fails with `CorruptLog`. -/
theorem C5_truncation (bytes : List Nat) (m : KvMap) :
    (bytes.length < 4 → replayLoop bytes m = .ok m) ∧
    (4 ≤ bytes.length → (bytes.drop 4).length < leU32 (bytes.take 4) →
      replayLoop bytes m = .error .CorruptLog) := by
  constructor
  · intro h
    rw [replayLoop_eq, if_pos h]
  · intro h4 hlt
    rw [replayLoop_eq, if_neg (by omega)]
    simp only [List.length_drop] at hlt
    simp [hlt]

theorem C5_witness :
    (([1, 2, 3] : List Nat).length < 4 ∧ replayLoop [1, 2, 3] [] = .ok []) ∧
    ((4 : Nat) ≤ ([16, 0, 0, 0, 1, 1] : List Nat).length ∧
     (([16, 0, 0, 0, 1, 1] : List Nat).drop 4).length <
       leU32 (([16, 0, 0, 0, 1, 1] : List Nat).take 4) ∧
     replayLoop [16, 0, 0, 0, 1, 1] [] = .error .CorruptLog) :=
  ⟨⟨by decide, (C5_truncation [1, 2, 3] []).1 (by decide)⟩,
   ⟨by decide, by decide,
     (C5_truncation [16, 0, 0, 0, 1, 1] []).2 (by decide) (by decide)⟩⟩

/-- Claim C6: decode parses the fixed header, recomputes `expected_len`
from the parsed `key_len`/`value_len` by encode's formula
(12 header bytes + key_len + value_len + 4 checksum bytes) and fails with
`CorruptLog` on mismatch before reading the variable-length payloads
(which may be arbitrary junk); only with consistent structure does it
recompute the checksum over the parsed fields, failing with `CorruptLog`
when it differs from the stored trailing checksum; and encode's
`total_len` prefix is computed by that same formula. -/
theorem C6_expected_len_then_checksum :
    (∀ (T a b c d : Nat) (klb vlb junk : List Nat),
      klb.length = 4 → vlb.length = 4 →
      (1 + 1 + 1 + 1 + 4 + 4 + leU32 klb + leU32 vlb + 4) % 2 ^ 32 ≠ T →
      deserialize T (a :: b :: c :: d :: (klb ++ (vlb ++ junk))) =
        .error .CorruptLog) ∧
    (∀ (f : Frame) (ck : Nat), FrameWF f → ck < 2 ^ 32 →
      ck ≠ compute_checksum f →
      deserialize (16 + f.key_len + f.value_len)
        (f.magic :: f.version :: f.operation :: f.encoding ::
          (leBytes4 f.key_len ++ (leBytes4 f.value_len ++
            (f.key_bytes ++ (f.value_bytes ++ leBytes4 ck))))) =
        .error .CorruptLog) ∧
    (∀ f : Frame, leU32 ((serialize f).take 4) =
      (1 + 1 + 1 + 1 + 4 + 4 + f.key_len + f.value_len + 4) % 2 ^ 32) := by
  refine ⟨?_, ?_, ?_⟩
  · intro T a b c d klb vlb junk hk4 hv4 hT
    exact deserialize_badlen klb vlb junk a b c d T hk4 hv4 hT
  · intro f ck hf hck hne
    obtain ⟨hm, hv, ho, he, hkb, hvb, hkl, hvl, hfit⟩ := hf
    have h := deserialize_fields f.magic f.version f.operation f.encoding
      f.key_len f.value_len f.key_bytes f.value_bytes ck hkl hvl hfit hck
    rw [if_neg ?hcond] at h
    case hcond =>
      rw [compute_checksum_set_total]
      exact fun hh => hne hh.symm
    exact h
  · intro f
    rw [serialize_take4, leU32_leBytes4]
    omega

set_option maxRecDepth 20000 in
theorem C6_witness :
    (([9, 9, 9, 9] : List Nat).length = 4 ∧
     ([0, 0, 0, 0] : List Nat).length = 4 ∧
     (1 + 1 + 1 + 1 + 4 + 4 + leU32 [9, 9, 9, 9] + leU32 [0, 0, 0, 0] + 4)
        % 2 ^ 32 ≠ 17 ∧
     deserialize 17 (1 :: 2 :: 3 :: 4 ::
        ([9, 9, 9, 9] ++ ([0, 0, 0, 0] ++ [5]))) = .error .CorruptLog) ∧
    (FrameWF (⟨0, 170, 1, 1, 0, 1, 0, [97], []⟩ : Frame) ∧ (0 : Nat) < 2 ^ 32 ∧
     (0 : Nat) ≠ compute_checksum ⟨0, 170, 1, 1, 0, 1, 0, [97], []⟩ ∧
     deserialize (16 + 1 + 0)
        (170 :: 1 :: 1 :: 0 :: (leBytes4 1 ++ (leBytes4 0 ++
          ([97] ++ ([] ++ leBytes4 0))))) = .error .CorruptLog) := by
  have h0 : (0 : Nat) ≠ compute_checksum ⟨0, 170, 1, 1, 0, 1, 0, [97], []⟩ := by
    decide
  refine ⟨⟨by decide, by decide, by decide,
    C6_expected_len_then_checksum.1 17 1 2 3 4 [9, 9, 9, 9] [0, 0, 0, 0] [5]
      (by decide) (by decide) (by decide)⟩,
    by decide, by decide, h0,
    C6_expected_len_then_checksum.2.1 ⟨0, 170, 1, 1, 0, 1, 0, [97], []⟩ 0
      (by decide) (by decide) h0⟩

lemma logOf_append (magic version : Nat) (l1 l2 : List StoreOp) :
    logOf magic version (l1 ++ l2) =
      logOf magic version l1 ++ logOf magic version l2 := by
  induction l1 with
  | nil => simp [logOf]
  | cons op rest ih =>
    cases op <;> simp [logOf, ih, List.append_assoc]

lemma applyOps_append (m : KvMap) (l1 l2 : List StoreOp) :
    applyOps m (l1 ++ l2) = applyOps (applyOps m l1) l2 := by
  induction l1 generalizing m with
  | nil => simp [applyOps]
  | cons op rest ih =>
    cases op <;> simp [applyOps, ih]

/-- Claim C8: `del(key)` never checks presence: on a store reached by
successful operations it succeeds and appends a Delete frame even when the
key is absent; deleting the same key twice succeeds both times, appends two
Delete frames, and replaying the resulting log leaves the key absent. -/
theorem C8_delete_idempotent (magic version : Nat) (key : List Nat)
    (ops : List StoreOp) (hm : magic < 256) (hv : version < 256)
    (hops : ∀ op ∈ ops, StoreOpWF op) (hu : validUtf8 key = true)
    (hkb : ByteOk key) (hfit : 16 + key.length < 2 ^ 32) :
    ((runOps ⟨[], [], magic, version⟩ ops).del key .success).2 = .ok () ∧
    ((((runOps ⟨[], [], magic, version⟩ ops).del key .success).1).del key
        .success).2 = .ok () ∧
    ((((runOps ⟨[], [], magic, version⟩ ops).del key .success).1).del key
        .success).1.log =
      (runOps ⟨[], [], magic, version⟩ ops).log ++
        serialize (Frame.new_delete key magic version) ++
        serialize (Frame.new_delete key magic version) ∧
    replayLoop
        (((((runOps ⟨[], [], magic, version⟩ ops).del key .success).1).del key
          .success).1.log) [] =
      .ok (mapRemove (mapRemove (runOps ⟨[], [], magic, version⟩ ops).map key)
        key) ∧
    mapGet (((((runOps ⟨[], [], magic, version⟩ ops).del key .success).1).del
        key .success).1.map) key = none := by
  have hops' : ∀ op ∈ ops ++ [StoreOp.delOp key, StoreOp.delOp key],
      StoreOpWF op := by
    intro op h
    rcases List.mem_append.mp h with h | h
    · exact hops op h
    · simp only [List.mem_cons, List.mem_singleton, List.not_mem_nil,
        or_false] at h
      rcases h with h | h <;> subst h <;> exact ⟨hu, hkb, hfit⟩
  have hdd : (((runOps ⟨[], [], magic, version⟩ ops).del key .success).1).del
        key .success =
      ((runOps ⟨[], [], magic, version⟩
          (ops ++ [StoreOp.delOp key, StoreOp.delOp key])), .ok ()) := by
    simp [runOps, List.foldl_append, runOp, del_success_eq]
  have e2 := runOps_eq (ops ++ [StoreOp.delOp key, StoreOp.delOp key])
    ⟨[], [], magic, version⟩
  simp only [List.nil_append] at e2
  have e1 := runOps_eq ops ⟨[], [], magic, version⟩
  simp only [List.nil_append] at e1
  refine ⟨by rw [del_success_eq], by rw [hdd], ?_, ?_, ?_⟩
  · rw [hdd, e2, e1]
    simp [logOf_append, logOf, List.append_assoc]
  · rw [hdd, e2, e1]
    show replayLoop (logOf magic version
      (ops ++ [StoreOp.delOp key, StoreOp.delOp key])) [] = _
    rw [← List.append_nil (logOf magic version
      (ops ++ [StoreOp.delOp key, StoreOp.delOp key]))]
    rw [replayLoop_logOf magic version hm hv _ hops', replayLoop_nil]
    rw [applyOps_append]
    rfl
  · rw [hdd, e2]
    show mapGet (applyOps []
      (ops ++ [StoreOp.delOp key, StoreOp.delOp key])) key = none
    rw [applyOps_append]
    show mapGet (mapRemove (mapRemove _ key) key) key = none
    exact mapGet_remove_self _ _

theorem C8_witness :
    ((170 : Nat) < 256 ∧ (1 : Nat) < 256 ∧ validUtf8 [98] = true ∧
      ByteOk [98] ∧ 16 + ([98] : List Nat).length < 2 ^ 32) ∧
    (((runOps ⟨[], [], 170, 1⟩ []).del [98] .success).2 = .ok () ∧
     ((((runOps ⟨[], [], 170, 1⟩ []).del [98] .success).1).del [98]
         .success).2 = .ok () ∧
     ((((runOps ⟨[], [], 170, 1⟩ []).del [98] .success).1).del [98]
         .success).1.log =
       (runOps ⟨[], [], 170, 1⟩ []).log ++
         serialize (Frame.new_delete [98] 170 1) ++
         serialize (Frame.new_delete [98] 170 1) ∧
     replayLoop
         (((((runOps ⟨[], [], 170, 1⟩ []).del [98] .success).1).del [98]
           .success).1.log) [] =
       .ok (mapRemove (mapRemove (runOps ⟨[], [], 170, 1⟩ []).map [98]) [98]) ∧
     mapGet (((((runOps ⟨[], [], 170, 1⟩ []).del [98] .success).1).del [98]
         .success).1.map) [98] = none) :=
  ⟨⟨by decide, by decide, by decide, by decide, by decide⟩,
    C8_delete_idempotent 170 1 [98] [] (by decide) (by decide) (by decide)
      (by decide) (by decide) (by decide)⟩

/-- Claim C9: the encoding tag decoder maps 0x00 to String, 0x01 to
Integer, 0x02 to Float, and any other byte to an `Encoding` error, which is
distinct from `CorruptLog`; during replay that error arises only for Set
frames with an unrecognized encoding byte, while the encoding byte of a
Delete frame is never validated — replaying a Delete frame succeeds
whatever its encoding byte is. -/
theorem C9_encoding_tags :
    (Encoding.from_u8 0x00 = .ok .String ∧
     Encoding.from_u8 0x01 = .ok .Integer ∧
     Encoding.from_u8 0x02 = .ok .Float) ∧
    (∀ b : Nat, b ≠ 0x00 → b ≠ 0x01 → b ≠ 0x02 →
      Encoding.from_u8 b = .error .Encoding) ∧
    (KVerror.Encoding ≠ KVerror.CorruptLog) ∧
    (∀ (m : KvMap) (f : Frame), f.operation = 0x01 →
      validUtf8 f.key_bytes = true →
      f.encoding ≠ 0x00 → f.encoding ≠ 0x01 → f.encoding ≠ 0x02 →
      applyFrame m f = .error .Encoding) ∧
    (∀ (m : KvMap) (f : Frame), f.operation = 0x02 →
      validUtf8 f.key_bytes = true →
      applyFrame m f = .ok (mapRemove m f.key_bytes)) ∧
    (∀ (m : KvMap) (f : Frame) (tail : List Nat), FrameWF f →
      f.operation = 0x02 → validUtf8 f.key_bytes = true →
      replayLoop (serialize f ++ tail) m =
        replayLoop tail (mapRemove m f.key_bytes)) := by
  refine ⟨⟨rfl, rfl, rfl⟩, ?_, by decide, ?_, ?_, ?_⟩
  · intro b h0 h1 h2
    simp [Encoding.from_u8, h0, h1, h2]
  · intro m f hop hu h0 h1 h2
    exact applyFrame_badenc m f hop hu h0 h1 h2
  · intro m f hop hu
    exact applyFrame_delete_op m f hop hu
  · intro m f tail hf hop hu
    exact replayLoop_frame_ok f hf tail m _ (applyFrame_delete_op m f hop hu)

theorem C9_witness :
    ((5 : Nat) ≠ 0x00 ∧ (5 : Nat) ≠ 0x01 ∧ (5 : Nat) ≠ 0x02 ∧
     Encoding.from_u8 5 = .error .Encoding) ∧
    (FrameWF (⟨0, 170, 1, 2, 99, 1, 0, [97], []⟩ : Frame) ∧
     (⟨0, 170, 1, 2, 99, 1, 0, [97], []⟩ : Frame).operation = 0x02 ∧
     validUtf8 (⟨0, 170, 1, 2, 99, 1, 0, [97], []⟩ : Frame).key_bytes = true ∧
     replayLoop (serialize (⟨0, 170, 1, 2, 99, 1, 0, [97], []⟩ : Frame) ++ []) [] =
       replayLoop [] (mapRemove []
         (⟨0, 170, 1, 2, 99, 1, 0, [97], []⟩ : Frame).key_bytes)) :=
  ⟨⟨by decide, by decide, by decide,
     C9_encoding_tags.2.1 5 (by decide) (by decide) (by decide)⟩,
   ⟨by decide, rfl, by decide,
     C9_encoding_tags.2.2.2.2.2 [] ⟨0, 170, 1, 2, 99, 1, 0, [97], []⟩ []
       (by decide) rfl (by decide)⟩⟩

/-- Claim C10: replay accepts only keys whose bytes are valid UTF-8: a
frame that is structurally sound and checksum-clean but whose key bytes are
not valid UTF-8 fails during application with `CorruptLog`, for both Set
and Delete frames, and that failure aborts the whole open regardless of
what follows in the log. -/
theorem C10_utf8_required :
    (∀ (m : KvMap) (f : Frame),
      (f.operation = 0x01 ∨ f.operation = 0x02) →
      validUtf8 f.key_bytes = false →
      applyFrame m f = .error .CorruptLog) ∧
    (∀ (m : KvMap) (f : Frame) (tail : List Nat), FrameWF f →
      (f.operation = 0x01 ∨ f.operation = 0x02) →
      validUtf8 f.key_bytes = false →
      replayLoop (serialize f ++ tail) m = .error .CorruptLog) ∧
    (∀ (f : Frame) (tail : List Nat) (magic version : Nat), FrameWF f →
      (f.operation = 0x01 ∨ f.operation = 0x02) →
      validUtf8 f.key_bytes = false →
      build_kv_store (serialize f ++ tail) magic version =
        .error .CorruptLog) := by
  refine ⟨?_, ?_, ?_⟩
  · intro m f hop hu
    exact applyFrame_badutf8 m f hop hu
  · intro m f tail hf hop hu
    exact replayLoop_frame_err f hf tail m _ (applyFrame_badutf8 m f hop hu)
  · intro f tail magic version hf hop hu
    unfold build_kv_store
    rw [replayLoop_frame_err f hf tail [] _ (applyFrame_badutf8 [] f hop hu)]

theorem C10_witness :
    (FrameWF (⟨0, 170, 1, 1, 0, 1, 0, [255], []⟩ : Frame) ∧
     ((⟨0, 170, 1, 1, 0, 1, 0, [255], []⟩ : Frame).operation = 0x01 ∨
      (⟨0, 170, 1, 1, 0, 1, 0, [255], []⟩ : Frame).operation = 0x02) ∧
     validUtf8 (⟨0, 170, 1, 1, 0, 1, 0, [255], []⟩ : Frame).key_bytes =
       false) ∧
    build_kv_store
        (serialize (⟨0, 170, 1, 1, 0, 1, 0, [255], []⟩ : Frame) ++ []) 170 1 =
      .error .CorruptLog :=
  ⟨⟨by decide, Or.inl rfl, by decide⟩,
    C10_utf8_required.2.2 ⟨0, 170, 1, 1, 0, 1, 0, [255], []⟩ [] 170 1
      (by decide) (Or.inl rfl) (by decide)⟩

section FlipLemmas

lemma xor_two_pow_ne (x j : Nat) : x ^^^ 2 ^ j ≠ x := by
  intro h
  have h2 : x ^^^ 2 ^ j = x ^^^ 0 := by rw [Nat.xor_zero]; exact h
  have h3 := Nat.xor_right_inj.mp h2
  exact (Nat.two_pow_pos j).ne' h3

lemma flipBit_cons_zero (x : Nat) (l : List Nat) (j : Nat) :
    flipBit (x :: l) 0 j = (x ^^^ 2 ^ j) :: l := rfl

lemma flipBit_cons_succ (x : Nat) (l : List Nat) (n j : Nat) :
    flipBit (x :: l) (n + 1) j = x :: flipBit l n j := rfl

lemma flipBit_append_left (l1 l2 : List Nat) (i j : Nat) (h : i < l1.length) :
    flipBit (l1 ++ l2) i j = flipBit l1 i j ++ l2 := by
  unfold flipBit
  have hg : (l1 ++ l2).getD i 0 = l1.getD i 0 := by
    simp [List.getElem?_append_left h]
  rw [hg, List.set_append_left _ _ h]

lemma flipBit_append_right (l1 l2 : List Nat) (i j : Nat)
    (h : l1.length ≤ i) :
    flipBit (l1 ++ l2) i j = l1 ++ flipBit l2 (i - l1.length) j := by
  unfold flipBit
  have hg : (l1 ++ l2).getD i 0 = l2.getD (i - l1.length) 0 := by
    simp [List.getElem?_append_right h]
  rw [hg, List.set_append_right _ _ h]

lemma flipBit_length (l : List Nat) (i j : Nat) :
    (flipBit l i j).length = l.length := by
  simp [flipBit]

lemma getD_lt_of_ByteOk (l : List Nat) (i : Nat) (hb : ByteOk l) :
    l.getD i 0 < 256 := by
  rcases Nat.lt_or_ge i l.length with h | h
  · rw [List.getD_eq_getElem?_getD, List.getElem?_eq_getElem h]
    exact hb _ (List.getElem_mem h)
  · rw [List.getD_eq_getElem?_getD, List.getElem?_eq_none h]
    norm_num

lemma flipBit_ByteOk (l : List Nat) (i j : Nat) (hj : j < 8) (hb : ByteOk l) :
    ByteOk (flipBit l i j) := by
  intro x hx
  rcases List.mem_or_eq_of_mem_set hx with h | h
  · exact hb x h
  · subst h
    have h1 : l.getD i 0 < 256 := getD_lt_of_ByteOk l i hb
    have h2 : 2 ^ j < 2 ^ 8 := Nat.pow_lt_pow_right (by norm_num) (by omega)
    have h3 : l.getD i 0 ^^^ 2 ^ j < 2 ^ 8 :=
      Nat.xor_lt_two_pow (by omega) h2
    omega

lemma flipBit_getD (l : List Nat) (i j : Nat) (h : i < l.length) :
    (flipBit l i j).getD i 0 = l.getD i 0 ^^^ 2 ^ j := by
  unfold flipBit
  rw [List.getD_eq_getElem?_getD,
    List.getElem?_eq_getElem (by simpa using h)]
  simp

lemma flipBit_ne (l : List Nat) (i j : Nat) (h : i < l.length) :
    flipBit l i j ≠ l := by
  intro heq
  have h2 := congrArg (fun t => List.getD t i 0) heq
  simp only at h2
  rw [flipBit_getD l i j h] at h2
  exact xor_two_pow_ne _ j h2

lemma crc32_flip_ne (l : List Nat) (i j : Nat) (hi : i < l.length)
    (hj : j < 8) (hb : ByteOk l) :
    crc32 (flipBit l i j) ≠ crc32 l := by
  have hgd : l.getD i 0 = l[i] := by
    rw [List.getD_eq_getElem?_getD, List.getElem?_eq_getElem hi]
    rfl
  have hlt : l.getD i 0 < 256 := getD_lt_of_ByteOk l i hb
  have hset : flipBit l i j =
      l.take i ++ (l.getD i 0 ^^^ 2 ^ j) :: l.drop (i + 1) := by
    unfold flipBit
    exact List.set_eq_take_cons_drop _ hi
  have horig : l = l.take i ++ l.getD i 0 :: l.drop (i + 1) := by
    conv_lhs => rw [← List.take_append_drop i l]
    rw [List.drop_eq_getElem_cons hi, hgd]
  rw [hset]
  conv_rhs => rw [horig]
  apply crc32_ne_single_diff
  · intro x hx
    have := hb x (List.mem_of_mem_take hx)
    omega
  · intro x hx
    have := hb x (List.mem_of_mem_drop hx)
    omega
  · have h2 : 2 ^ j < 2 ^ 8 := Nat.pow_lt_pow_right (by norm_num) (by omega)
    have h3 : l.getD i 0 ^^^ 2 ^ j < 2 ^ 8 :=
      Nat.xor_lt_two_pow (by omega) h2
    omega
  · omega
  · exact xor_two_pow_ne _ j

lemma checksumInput_eq (f : Frame) :
    checksumInput f =
      f.magic :: f.version :: f.operation :: f.encoding ::
        (leBytes4 f.key_len ++ (leBytes4 f.value_len ++
          (f.key_bytes ++ f.value_bytes))) := by
  simp [checksumInput]

lemma checksumInput_length (f : Frame) :
    (checksumInput f).length =
      12 + f.key_bytes.length + f.value_bytes.length := by
  rw [checksumInput_eq]
  simp only [List.length_cons, List.length_append, leBytes4_length]
  omega

lemma compute_checksum_ne_of_flip (f : Frame) (hf : FrameWF f) (f' : Frame)
    (pos j : Nat) (hpos : pos < (checksumInput f).length) (hj : j < 8)
    (hCI : checksumInput f' = flipBit (checksumInput f) pos j) :
    compute_checksum f' ≠ compute_checksum f := by
  intro hcc
  apply crc32_flip_ne (checksumInput f) pos j hpos hj
    (checksumInput_ByteOk f hf)
  rw [← hCI]
  exact hcc

end FlipLemmas

/-- Claim C7: for every well-formed frame, flipping any single bit of its
encoded bytes other than the bits of the 4-byte `total_len` prefix causes
decoding the modified bytes (reading the length prefix, then the body) to
fail with `CorruptLog`: a flip in the length fields trips the structural
`expected_len` check, a flip in header or payload bytes trips the CRC-32
comparison, and a flip in the stored checksum makes it disagree with the
recomputed one. -/
theorem C7_checksum_sensitivity (f : Frame) (hf : FrameWF f) (i j : Nat)
    (h4 : 4 ≤ i) (hil : i < (serialize f).length) (hj : j < 8) :
    deserialize (leU32 ((flipBit (serialize f) i j).take 4))
      ((flipBit (serialize f) i j).drop 4) = .error .CorruptLog := by
  have hf2 := hf
  obtain ⟨hm, hv, ho, he, hkb, hvb, hkl, hvl, hfit⟩ := hf2
  have hT32 : 16 + f.key_len + f.value_len < 2 ^ 32 := by omega
  have hTmod : (1 + 1 + 1 + 1 + 4 + 4 + f.key_len + f.value_len + 4) % 2 ^ 32
      = 16 + f.key_len + f.value_len := by omega
  have hck32 : compute_checksum f < 2 ^ 32 :=
    crc32_lt _ (checksumInput_ByteOk f hf)
  have hklu : leU32 (leBytes4 f.key_len) = f.key_len := by
    rw [leU32_leBytes4]; omega
  have hvlu : leU32 (leBytes4 f.value_len) = f.value_len := by
    rw [leU32_leBytes4]; omega
  have hshape : serialize f =
      leBytes4 (16 + f.key_len + f.value_len) ++ frameBody f := by
    rw [serialize_shape, hTmod]
  rw [serialize_length] at hil
  obtain ⟨i', rfl⟩ : ∃ i', i = i' + 4 := ⟨i - 4, by omega⟩
  have hi' : i' < 16 + f.key_bytes.length + f.value_bytes.length := by omega
  have hflip : flipBit (serialize f) (i' + 4) j =
      leBytes4 (16 + f.key_len + f.value_len) ++
        flipBit (frameBody f) i' j := by
    rw [hshape,
      flipBit_append_right _ _ _ _ (by rw [leBytes4_length]; omega),
      leBytes4_length]
    simp only [Nat.add_sub_cancel]
  rw [hflip, List.take_left' (leBytes4_length _),
    List.drop_left' (leBytes4_length _), leU32_leBytes4,
    Nat.mod_eq_of_lt hT32]
  show deserialize (16 + f.key_len + f.value_len)
    (flipBit (f.magic :: f.version :: f.operation :: f.encoding ::
      (leBytes4 f.key_len ++ (leBytes4 f.value_len ++
        (f.key_bytes ++ (f.value_bytes ++
          leBytes4 (compute_checksum f)))))) i' j) = .error .CorruptLog
  rcases i' with _ | _ | _ | _ | r
  · -- magic byte
    rw [flipBit_cons_zero]
    rw [deserialize_fields (f.magic ^^^ 2 ^ j) f.version f.operation
      f.encoding f.key_len f.value_len f.key_bytes f.value_bytes
      (compute_checksum f) hkl hvl hfit hck32]
    have hCI : checksumInput ⟨16 + f.key_len + f.value_len,
        f.magic ^^^ 2 ^ j, f.version, f.operation, f.encoding, f.key_len,
        f.value_len, f.key_bytes, f.value_bytes⟩ =
        flipBit (checksumInput f) 0 j := by
      rw [checksumInput_eq f, flipBit_cons_zero]
      simp [checksumInput]
    rw [if_neg (compute_checksum_ne_of_flip f hf _ 0 j
      (by rw [checksumInput_length]; omega) hj hCI)]
  · -- version byte
    rw [flipBit_cons_succ, flipBit_cons_zero]
    rw [deserialize_fields f.magic (f.version ^^^ 2 ^ j) f.operation
      f.encoding f.key_len f.value_len f.key_bytes f.value_bytes
      (compute_checksum f) hkl hvl hfit hck32]
    have hCI : checksumInput ⟨16 + f.key_len + f.value_len, f.magic,
        f.version ^^^ 2 ^ j, f.operation, f.encoding, f.key_len,
        f.value_len, f.key_bytes, f.value_bytes⟩ =
        flipBit (checksumInput f) 1 j := by
      rw [checksumInput_eq f, flipBit_cons_succ, flipBit_cons_zero]
      simp [checksumInput]
    rw [if_neg (compute_checksum_ne_of_flip f hf _ 1 j
      (by rw [checksumInput_length]; omega) hj hCI)]
  · -- operation byte
    rw [flipBit_cons_succ, flipBit_cons_succ, flipBit_cons_zero]
    rw [deserialize_fields f.magic f.version (f.operation ^^^ 2 ^ j)
      f.encoding f.key_len f.value_len f.key_bytes f.value_bytes
      (compute_checksum f) hkl hvl hfit hck32]
    have hCI : checksumInput ⟨16 + f.key_len + f.value_len, f.magic,
        f.version, f.operation ^^^ 2 ^ j, f.encoding, f.key_len,
        f.value_len, f.key_bytes, f.value_bytes⟩ =
        flipBit (checksumInput f) 2 j := by
      rw [checksumInput_eq f, flipBit_cons_succ, flipBit_cons_succ,
        flipBit_cons_zero]
      simp [checksumInput]
    rw [if_neg (compute_checksum_ne_of_flip f hf _ 2 j
      (by rw [checksumInput_length]; omega) hj hCI)]
  · -- encoding byte
    rw [flipBit_cons_succ, flipBit_cons_succ, flipBit_cons_succ,
      flipBit_cons_zero]
    rw [deserialize_fields f.magic f.version f.operation
      (f.encoding ^^^ 2 ^ j) f.key_len f.value_len f.key_bytes f.value_bytes
      (compute_checksum f) hkl hvl hfit hck32]
    have hCI : checksumInput ⟨16 + f.key_len + f.value_len, f.magic,
        f.version, f.operation, f.encoding ^^^ 2 ^ j, f.key_len,
        f.value_len, f.key_bytes, f.value_bytes⟩ =
        flipBit (checksumInput f) 3 j := by
      rw [checksumInput_eq f, flipBit_cons_succ, flipBit_cons_succ,
        flipBit_cons_succ, flipBit_cons_zero]
      simp [checksumInput]
    rw [if_neg (compute_checksum_ne_of_flip f hf _ 3 j
      (by rw [checksumInput_length]; omega) hj hCI)]
  · -- inside the length fields, payloads, or checksum
    rw [flipBit_cons_succ, flipBit_cons_succ, flipBit_cons_succ,
      flipBit_cons_succ]
    have hr : r < 12 + f.key_bytes.length + f.value_bytes.length := by omega
    by_cases c1 : r < 4
    · -- key_len field: structural check fails
      rw [flipBit_append_left _ _ _ _ (by rw [leBytes4_length]; omega)]
      have hk4' : (flipBit (leBytes4 f.key_len) r j).length = 4 := by
        rw [flipBit_length, leBytes4_length]
      have hbk' : ByteOk (flipBit (leBytes4 f.key_len) r j) :=
        flipBit_ByteOk _ r j hj (leBytes4_ByteOk _)
      have hlt' : leU32 (flipBit (leBytes4 f.key_len) r j) < 2 ^ 32 :=
        leU32_lt _ hk4' hbk'
      have hne' : leU32 (flipBit (leBytes4 f.key_len) r j) ≠ f.key_len := by
        intro hEq
        have h1 : leBytes4 (leU32 (flipBit (leBytes4 f.key_len) r j)) =
            flipBit (leBytes4 f.key_len) r j := leBytes4_leU32 _ hk4' hbk'
        rw [hEq] at h1
        exact flipBit_ne (leBytes4 f.key_len) r j
          (by rw [leBytes4_length]; omega) h1.symm
      exact deserialize_badlen _ _ _ _ _ _ _ _ hk4' (leBytes4_length _)
        (by rw [hvlu]; omega)
    by_cases c2 : r < 8
    · -- value_len field: structural check fails
      rw [flipBit_append_right _ _ _ _ (by rw [leBytes4_length]; omega),
        leBytes4_length]
      rw [flipBit_append_left _ _ _ _ (by rw [leBytes4_length]; omega)]
      have hv4' : (flipBit (leBytes4 f.value_len) (r - 4) j).length = 4 := by
        rw [flipBit_length, leBytes4_length]
      have hbv' : ByteOk (flipBit (leBytes4 f.value_len) (r - 4) j) :=
        flipBit_ByteOk _ _ j hj (leBytes4_ByteOk _)
      have hlt' : leU32 (flipBit (leBytes4 f.value_len) (r - 4) j) < 2 ^ 32 :=
        leU32_lt _ hv4' hbv'
      have hne' : leU32 (flipBit (leBytes4 f.value_len) (r - 4) j) ≠
          f.value_len := by
        intro hEq
        have h1 : leBytes4 (leU32 (flipBit (leBytes4 f.value_len) (r - 4) j)) =
            flipBit (leBytes4 f.value_len) (r - 4) j :=
          leBytes4_leU32 _ hv4' hbv'
        rw [hEq] at h1
        exact flipBit_ne (leBytes4 f.value_len) (r - 4) j
          (by rw [leBytes4_length]; omega) h1.symm
      exact deserialize_badlen _ _ _ _ _ _ _ _ (leBytes4_length _) hv4'
        (by rw [hklu]; omega)
    by_cases c3 : r < 8 + f.key_bytes.length
    · -- key payload byte: checksum comparison fails
      rw [flipBit_append_right _ _ _ _ (by rw [leBytes4_length]; omega),
        leBytes4_length]
      rw [flipBit_append_right _ _ _ _ (by rw [leBytes4_length]; omega),
        leBytes4_length]
      rw [flipBit_append_left _ _ _ _ (by omega)]
      rw [deserialize_fields f.magic f.version f.operation f.encoding
        f.key_len f.value_len (flipBit f.key_bytes (r - 4 - 4) j)
        f.value_bytes (compute_checksum f)
        (by rw [flipBit_length]; exact hkl) hvl
        (by rw [flipBit_length]; exact hfit) hck32]
      have hCI : checksumInput ⟨16 + f.key_len + f.value_len, f.magic,
          f.version, f.operation, f.encoding, f.key_len, f.value_len,
          flipBit f.key_bytes (r - 4 - 4) j, f.value_bytes⟩ =
          flipBit (checksumInput f) ((r - 4 - 4) + 12) j := by
        rw [checksumInput_eq f, flipBit_cons_succ, flipBit_cons_succ,
          flipBit_cons_succ, flipBit_cons_succ]
        rw [flipBit_append_right _ _ _ _ (by rw [leBytes4_length]; omega),
          leBytes4_length,
          show r - 4 - 4 + 8 - 4 = r - 4 - 4 + 4 from by omega]
        rw [flipBit_append_right _ _ _ _ (by rw [leBytes4_length]; omega),
          leBytes4_length,
          show r - 4 - 4 + 4 - 4 = r - 4 - 4 from by omega]
        rw [flipBit_append_left _ _ _ _ (by omega)]
        simp [checksumInput]
      rw [if_neg (compute_checksum_ne_of_flip f hf _ ((r - 4 - 4) + 12) j
        (by rw [checksumInput_length]; omega) hj hCI)]
    by_cases c4 : r < 8 + f.key_bytes.length + f.value_bytes.length
    · -- value payload byte: checksum comparison fails
      rw [flipBit_append_right _ _ _ _ (by rw [leBytes4_length]; omega),
        leBytes4_length]
      rw [flipBit_append_right _ _ _ _ (by rw [leBytes4_length]; omega),
        leBytes4_length]
      rw [flipBit_append_right _ _ _ _ (by omega)]
      rw [flipBit_append_left _ _ _ _ (by omega)]
      rw [deserialize_fields f.magic f.version f.operation f.encoding
        f.key_len f.value_len f.key_bytes
        (flipBit f.value_bytes (r - 4 - 4 - f.key_bytes.length) j)
        (compute_checksum f) hkl
        (by rw [flipBit_length]; exact hvl)
        (by rw [flipBit_length]; exact hfit) hck32]
      have hCI : checksumInput ⟨16 + f.key_len + f.value_len, f.magic,
          f.version, f.operation, f.encoding, f.key_len, f.value_len,
          f.key_bytes,
          flipBit f.value_bytes (r - 4 - 4 - f.key_bytes.length) j⟩ =
          flipBit (checksumInput f)
            ((r - 4 - 4 - f.key_bytes.length + f.key_bytes.length) + 12)
            j := by
        rw [checksumInput_eq f, flipBit_cons_succ, flipBit_cons_succ,
          flipBit_cons_succ, flipBit_cons_succ]
        rw [flipBit_append_right _ _ _ _ (by rw [leBytes4_length]; omega),
          leBytes4_length,
          show r - 4 - 4 - f.key_bytes.length + f.key_bytes.length + 8 - 4 =
            r - 4 - 4 - f.key_bytes.length + f.key_bytes.length + 4
            from by omega]
        rw [flipBit_append_right _ _ _ _ (by rw [leBytes4_length]; omega),
          leBytes4_length,
          show r - 4 - 4 - f.key_bytes.length + f.key_bytes.length + 4 - 4 =
            r - 4 - 4 - f.key_bytes.length + f.key_bytes.length
            from by omega]
        rw [flipBit_append_right _ _ _ _ (by omega),
          show r - 4 - 4 - f.key_bytes.length + f.key_bytes.length -
            f.key_bytes.length = r - 4 - 4 - f.key_bytes.length
            from by omega]
        simp [checksumInput]
      rw [if_neg (compute_checksum_ne_of_flip f hf _
        ((r - 4 - 4 - f.key_bytes.length + f.key_bytes.length) + 12) j
        (by rw [checksumInput_length]; omega) hj hCI)]
    · -- stored checksum byte: comparison fails
      rw [flipBit_append_right _ _ _ _ (by rw [leBytes4_length]; omega),
        leBytes4_length]
      rw [flipBit_append_right _ _ _ _ (by rw [leBytes4_length]; omega),
        leBytes4_length]
      rw [flipBit_append_right _ _ _ _ (by omega)]
      rw [flipBit_append_right _ _ _ _ (by omega)]
      have hc4' : (flipBit (leBytes4 (compute_checksum f))
          (r - 4 - 4 - f.key_bytes.length - f.value_bytes.length) j).length =
          4 := by
        rw [flipBit_length, leBytes4_length]
      have hbc' : ByteOk (flipBit (leBytes4 (compute_checksum f))
          (r - 4 - 4 - f.key_bytes.length - f.value_bytes.length) j) :=
        flipBit_ByteOk _ _ j hj (leBytes4_ByteOk _)
      have hlt' : leU32 (flipBit (leBytes4 (compute_checksum f))
          (r - 4 - 4 - f.key_bytes.length - f.value_bytes.length) j) <
          2 ^ 32 := leU32_lt _ hc4' hbc'
      have hrw : flipBit (leBytes4 (compute_checksum f))
          (r - 4 - 4 - f.key_bytes.length - f.value_bytes.length) j =
          leBytes4 (leU32 (flipBit (leBytes4 (compute_checksum f))
            (r - 4 - 4 - f.key_bytes.length - f.value_bytes.length) j)) :=
        (leBytes4_leU32 _ hc4' hbc').symm
      rw [hrw]
      rw [deserialize_fields f.magic f.version f.operation f.encoding
        f.key_len f.value_len f.key_bytes f.value_bytes
        (leU32 (flipBit (leBytes4 (compute_checksum f))
          (r - 4 - 4 - f.key_bytes.length - f.value_bytes.length) j))
        hkl hvl hfit hlt']
      have hne2 : compute_checksum f ≠
          leU32 (flipBit (leBytes4 (compute_checksum f))
            (r - 4 - 4 - f.key_bytes.length - f.value_bytes.length) j) := by
        intro hEq
        apply flipBit_ne (leBytes4 (compute_checksum f))
          (r - 4 - 4 - f.key_bytes.length - f.value_bytes.length) j
          (by rw [leBytes4_length]; omega)
        rw [hrw, ← hEq]
      rw [compute_checksum_set_total, if_neg hne2]

set_option maxRecDepth 40000 in
theorem C7_witness :
    (FrameWF (⟨0, 170, 1, 1, 0, 1, 1, [97], [120]⟩ : Frame) ∧ (4 : Nat) ≤ 4 ∧
     4 < (serialize (⟨0, 170, 1, 1, 0, 1, 1, [97], [120]⟩ : Frame)).length ∧
     (0 : Nat) < 8) ∧
    deserialize
        (leU32 ((flipBit
          (serialize (⟨0, 170, 1, 1, 0, 1, 1, [97], [120]⟩ : Frame)) 4 0).take 4))
        ((flipBit
          (serialize (⟨0, 170, 1, 1, 0, 1, 1, [97], [120]⟩ : Frame)) 4 0).drop 4) =
      .error .CorruptLog :=
  ⟨⟨by decide, by decide, by decide, by decide⟩,
    C7_checksum_sensitivity ⟨0, 170, 1, 1, 0, 1, 1, [97], [120]⟩ (by decide)
      4 0 (by decide) (by decide) (by decide)⟩

end KV
